import Mathlib

/-
Verification development for the nsec-remote-signer firmware
(NIP-46 remote signer on ESP32).

The relevant program logic lives in src/src/remote_signer.cpp (the NIP-46
dispatcher, authorization store and reconnect loop) and in
src/lib/nostr/nostr.cpp (NIP-04 AES-CBC envelope, event building and the
ECDH cache).  Arduino String values are embedded as List Char, raw byte
buffers as List Nat.  External collaborators that are not part of this
repository (the AES block transform, secp256k1, SHA-256, base64/hex codecs
and the ArduinoJson parser) are abstracted as function parameters; every
definition below is otherwise a line-by-line translation of the cited
source function.
-/

/-! Byte-level helpers for the NIP-04 AES-CBC envelope (nostr.cpp). -/

-- isspace of the C library, as used by Arduino String::trim: the bytes
-- 9..13 (tab, newline, vertical tab, form feed, carriage return) and 32.
def arduinoIsSpaceByte (b : Nat) : Bool :=
  b == 32 || b == 9 || b == 10 || b == 11 || b == 12 || b == 13

-- Arduino String::trim removes leading and trailing isspace characters.
def trimBytes (s : List Nat) : List Nat :=
  ((s.dropWhile arduinoIsSpaceByte).reverse.dropWhile arduinoIsSpaceByte).reverse

-- nostr.cpp stringToByteArray (lines 530-545): copy the message up to the
-- terminating NUL, then append padding_diff bytes whose value is
-- padding_diff itself.
def stringToByteArray (input : List Nat) (padding_diff : Nat) : List Nat :=
  input.takeWhile (fun b => b != 0) ++ List.replicate padding_diff padding_diff

-- nostr.cpp encryptData (lines 555-577), at the byte level.  The AES-256-CBC
-- transform of the external aes library is the parameter E (the source
-- returns toHex of this buffer; hex transport is lossless and is elided).
-- The pad length is 16 when the length is already a multiple of 16,
-- otherwise 16 - (len mod 16).
def encryptDataBytes (E : List Nat → List Nat) (msg : List Nat) : List Nat :=
  let padding_diff := if msg.length % 16 == 0 then 16 else 16 - msg.length % 16
  E (stringToByteArray msg padding_diff)

-- nostr.cpp decryptData (lines 194-226), at the byte level with the inverse
-- AES-CBC transform D.  The source builds the result string by copying
-- decrypted bytes until the first NUL byte or the end of the buffer; it
-- performs NO removal of the CBC padding bytes.
def decryptDataBytes (D : List Nat → List Nat) (bytes : List Nat) : List Nat :=
  (D bytes).takeWhile (fun b => b != 0)

-- The NIP-04 round trip of the spec, as the code implements it:
-- decryptNip04Ciphertext (lines 228-300) feeds the ciphertext through
-- decryptData and then calls message.trim() on the result (line 294).
def nip04RoundTripBytes (E D : List Nat → List Nat) (msg : List Nat) : List Nat :=
  trimBytes (decryptDataBytes D (encryptDataBytes E msg))

/-! Arduino String helpers over List Char. -/

def arduinoIsSpace (c : Char) : Bool := arduinoIsSpaceByte c.toNat

def arduinoTrim (s : List Char) : List Char :=
  ((s.dropWhile arduinoIsSpace).reverse.dropWhile arduinoIsSpace).reverse

-- strstr search: true when needle occurs in hay (an empty needle is found
-- at position 0).
def strstrFound (hay needle : List Char) : Bool :=
  needle.isPrefixOf hay ||
    match hay with
    | [] => false
    | _ :: t => strstrFound t needle

-- Arduino String::indexOf(s2) != -1.  indexOf returns -1 outright when the
-- receiver is empty (fromIndex 0 >= len()), otherwise it delegates to strstr.
def arduinoContains (hay needle : List Char) : Bool :=
  match hay with
  | [] => false
  | _ :: _ => strstrFound hay needle

-- needle occurs as a contiguous substring of hay.
def occursIn (needle hay : List Char) : Prop :=
  ∃ s t, hay = s ++ needle ++ t

-- pre is an initial segment of c.
def startsWithPart (pre c : List Char) : Prop :=
  ∃ t, c = pre ++ t

-- Arduino String::replace(find, rep): replace every occurrence of find,
-- scanning left to right and continuing after each inserted replacement;
-- a no-op when find is empty.
def replaceAll (s pat rep : List Char) : List Char :=
  match s with
  | [] => []
  | c :: t =>
    if h : pat ≠ [] ∧ pat.isPrefixOf (c :: t) then
      rep ++ replaceAll ((c :: t).drop pat.length) pat rep
    else
      c :: replaceAll t pat rep
termination_by s.length
decreasing_by
  · have hlen : 0 < pat.length := List.length_pos.mpr h.1
    simp only [List.length_drop, List.length_cons]
    omega
  · simp only [List.length_cons]
    omega

/-! Authorization store (remote_signer.cpp lines 696-780). -/

def MAX_AUTHORIZED_CLIENTS : Nat := 30

-- getAuthorizedClientCount (lines 755-765): 0 for the empty list, else one
-- more than the number of pipe separators.
def getAuthorizedClientCount (authorizedClients : List Char) : Nat :=
  if authorizedClients.length = 0 then 0
  else 1 + (authorizedClients.filter (fun c => c == '|')).length

-- removeOldestClient (lines 767-780): empty the list when it has no
-- separator, otherwise drop everything through the first separator.
-- Both branches equal dropping through the first pipe (or everything).
def removeOldestClient (s : List Char) : List Char :=
  (s.dropWhile (fun c => c != '|')).drop 1

-- addAuthorizedClient (lines 734-753): no-op when indexOf finds the key;
-- otherwise evict the oldest entry when at capacity, then append with a
-- pipe separator when the list is nonempty.
def addAuthorizedClient (authorizedClients clientPubKey : List Char) : List Char :=
  if arduinoContains authorizedClients clientPubKey then authorizedClients
  else
    let afterEvict :=
      if MAX_AUTHORIZED_CLIENTS ≤ getAuthorizedClientCount authorizedClients then
        removeOldestClient authorizedClients
      else authorizedClients
    (if 0 < afterEvict.length then afterEvict ++ ['|'] else afterEvict) ++ clientPubKey

-- The pipe-joined store holding exactly the given client strings.
def joinClients : List (List Char) → List Char
  | [] => []
  | [c] => c
  | c :: cs => c ++ '|' :: joinClients cs

/-! Session secret (remote_signer.cpp refreshSecretKey, lines 190-197). -/

def hexDigits : List Char := "0123456789abcdef".data

-- refreshSecretKey appends 64 characters, each picked from hexDigits by
-- esp_random() mod 16; rand i is the value of the i-th esp_random() call.
def refreshSecretKey (rand : Nat → Nat) : List Char :=
  (List.range 64).map (fun i => hexDigits.getD (rand i % 16) 'x')

/-! NIP-46 dispatcher model (remote_signer.cpp lines 362-732). -/

inductive Scheme where
  | nip04
  | nip44
deriving DecidableEq

-- The decrypted JSON-RPC request, as ArduinoJson exposes it to the
-- handlers: correlation id, method name, and the params array as strings.
structure Request where
  id : List Char
  method : List Char
  params : List (List Char)
deriving DecidableEq

-- The event fields handleSignEvent reads out of params[0]
-- (remote_signer.cpp lines 484-487).
structure EventFields where
  kind : Nat
  content : List Char
  tags : List Char
  created_at : Nat
deriving DecidableEq

-- The module-level mutable state of namespace RemoteSigner that the
-- dispatcher reads and writes.
structure SignerState where
  userPrivateKeyHex : List Char
  userPublicKeyHex : List Char
  devicePrivateKeyHex : List Char
  devicePublicKeyHex : List Char
  secretKey : List Char
  authorizedClients : List Char
  unixTimestamp : Nat
deriving DecidableEq

-- What a handler hands to nostr::getEncryptedDm and then to
-- webSocket.sendTXT: the device keypair, the requester as recipient,
-- kind 24133, the plaintext response JSON and the encryption scheme
-- ("nip44" or "nip04" literal at each call site).
structure Outbound where
  senderPrivHex : List Char
  senderPubHex : List Char
  recipient : List Char
  kind : Nat
  timestamp : Nat
  plaintext : List Char
  scheme : Scheme
deriving DecidableEq

-- External collaborators: cryptographic primitives (secp256k1, SHA-256)
-- and the ArduinoJson parser, plus the four content encryption services
-- the nip04/nip44 handlers call with the user key.  None of these are
-- code of this repository; the dispatcher only forwards their results.
structure ExtDeps where
  sha256hex : List Char → List Char
  schnorrSign : List Char → List Char → List Char
  schnorrVerify : List Char → List Char → List Char → Bool
  derivePub : List Char → List Char
  parseRequest : List Char → Option Request
  parseEventFields : List Char → Option EventFields
  encryptNip04 : List Char → List Char → List Char → List Char
  decryptNip04 : List Char → List Char → List Char → List Char
  encryptNip44 : List Char → List Char → List Char → List Char
  decryptNip44 : List Char → List Char → List Char → List Char

-- One inbound relay frame, reduced to what handleSigningRequestEvent
-- extracts from it: the sender pubkey nostr::getSenderPubKeyHex returns,
-- whether the raw event text contains the "?iv=" marker, and the result
-- of the (hasIv ? nip04Decrypt : nip44Decrypt) call with the device key
-- (empty on decryption failure).
structure Frame where
  senderPubKey : List Char
  hasIv : Bool
  decrypted : List Char
deriving DecidableEq

-- ArduinoJson turns an absent array slot into a null variant, which
-- converts to the string "null"; present slots convert to their value.
def jsonParam (ps : List (List Char)) (i : Nat) : List Char :=
  ps.getD i "null".data

-- The response plaintext format every handler builds.
def jsonIdResult (id result : List Char) : List Char :=
  "\x7b\"id\":\"".data ++ id ++ "\",\"result\":\"".data ++ result ++ "\"\x7d".data

-- The getEncryptedDm call each handler makes (device keypair, kind 24133).
def mkOutbound (st : SignerState) (recipient plaintext : List Char) (scheme : Scheme) : Outbound :=
  { senderPrivHex := st.devicePrivateKeyHex
    senderPubHex := st.devicePublicKeyHex
    recipient := recipient
    kind := 24133
    timestamp := st.unixTimestamp
    plaintext := plaintext
    scheme := scheme }

-- isClientAuthorized (lines 696-703): substring containment test via
-- String::indexOf over the pipe-joined list.
def isClientAuthorized (st : SignerState) (clientPubKey : List Char) : Bool :=
  arduinoContains st.authorizedClients clientPubKey

-- checkClientIsAuthorized (lines 705-732): already-authorized clients
-- pass; otherwise the trimmed secret must equal the session secret, which
-- also adds the client; promptUserForAuthorization always returns false.
def checkClientIsAuthorized (st : SignerState) (clientPubKey secret : List Char) :
    Bool × SignerState :=
  if isClientAuthorized st clientPubKey then (true, st)
  else if arduinoTrim secret = st.secretKey then
    (true, { st with authorizedClients := addAuthorizedClient st.authorizedClients clientPubKey })
  else (false, st)

-- handleConnect (lines 426-459): params[1] is the secret; an authorized
-- or freshly authorizing client gets \x7bid,result\x7d echoing the secret (or
-- "ack" when it is empty), encrypted as nip44; otherwise no response.
def handleConnect (st : SignerState) (requestingPubKey : List Char) (req : Request) :
    SignerState × List Outbound :=
  let secret := jsonParam req.params 1
  let r := checkClientIsAuthorized st requestingPubKey secret
  if r.1 then
    let responseMsg :=
      if 0 < secret.length then jsonIdResult req.id secret
      else jsonIdResult req.id "ack".data
    (r.2, [mkOutbound r.2 requestingPubKey responseMsg Scheme.nip44])
  else (r.2, [])

/-! Event building (nostr.cpp getNote, lines 445-521). -/

def natStr (n : Nat) : List Char := (Nat.repr n).data

-- The four content escapes getNote applies, in source order.
def escapeContent (c : List Char) : List Char :=
  replaceAll (replaceAll (replaceAll (replaceAll c
    "\"".data "\\\"".data)
    "\n".data "\\n".data)
    "\r".data "\\r".data)
    "\t".data "\\t".data

-- The serialized signing array [0,pubkey,created_at,kind,tags,content]
-- (nostr.cpp line 459); content is already escaped here.
def noteMessage (pubKeyHex : List Char) (timestamp : Nat) (kind : Nat)
    (tags content : List Char) : List Char :=
  "[0,\"".data ++ pubKeyHex ++ "\",".data ++ natStr timestamp ++ ",".data ++
    natStr kind ++ ",".data ++ tags ++ ",\"".data ++ content ++ "\"]".data

structure SignedNote where
  id : List Char
  pubkey : List Char
  created_at : Nat
  kind : Nat
  tags : List Char
  content : List Char
  sig : List Char
deriving DecidableEq

-- getNote: hash the serialized array, sign the hash with the given private
-- key (the hash travels through toHex/fromHex, which is lossless), and
-- emit the event object fields.  sha256hex abstracts sha256 + toHex;
-- schnorrSign abstracts PrivateKey::schnorr_sign + hex rendering.
def buildNote (X : ExtDeps) (privateKeyHex pubKeyHex : List Char) (timestamp : Nat)
    (content : List Char) (kind : Nat) (tags : List Char) : SignedNote :=
  let c := escapeContent content
  let message := noteMessage pubKeyHex timestamp kind tags c
  let msgHash := X.sha256hex message
  let signatureHex := X.schnorrSign privateKeyHex msgHash
  { id := msgHash
    pubkey := pubKeyHex
    created_at := timestamp
    kind := kind
    tags := tags
    content := c
    sig := signatureHex }

-- The serialized event JSON string getNote returns (nostr.cpp line 515).
def renderNote (n : SignedNote) : List Char :=
  "\x7b\"id\":\"".data ++ n.id ++ "\",\"pubkey\":\"".data ++ n.pubkey ++
    "\",\"created_at\":".data ++ natStr n.created_at ++ ",\"kind\":".data ++
    natStr n.kind ++ ",\"tags\":".data ++ n.tags ++ ",\"content\":\"".data ++
    n.content ++ "\",\"sig\":\"".data ++ n.sig ++ "\"\x7d".data

def getNote (X : ExtDeps) (privateKeyHex pubKeyHex : List Char) (timestamp : Nat)
    (content : List Char) (kind : Nat) (tags : List Char) : List Char :=
  renderNote (buildNote X privateKeyHex pubKeyHex timestamp content kind tags)

-- handleSignEvent escapes the signed event before embedding it in the
-- response JSON (remote_signer.cpp lines 508-510).
def escapeResponseEvent (s : List Char) : List Char :=
  replaceAll (replaceAll s "\\".data "\\\\".data) "\"".data "\\\"".data

/-! The eight method handlers (remote_signer.cpp lines 461-694). -/

-- handleSignEvent (lines 461-542): authorization first, then parse
-- params[0] into event fields, sign with the USER keypair, respond nip44.
def handleSignEvent (X : ExtDeps) (st : SignerState) (requestingPubKey : List Char)
    (req : Request) : SignerState × List Outbound :=
  if isClientAuthorized st requestingPubKey then
    match X.parseEventFields (jsonParam req.params 0) with
    | none => (st, [])
    | some ev =>
      let signedEvent := getNote X st.userPrivateKeyHex st.userPublicKeyHex
        ev.created_at ev.content ev.kind ev.tags
      let responseMsg := jsonIdResult req.id (escapeResponseEvent signedEvent)
      (st, [mkOutbound st requestingPubKey responseMsg Scheme.nip44])
  else (st, [])

-- handlePing (lines 544-565).
def handlePing (st : SignerState) (requestingPubKey : List Char) (req : Request) :
    SignerState × List Outbound :=
  if isClientAuthorized st requestingPubKey then
    (st, [mkOutbound st requestingPubKey (jsonIdResult req.id "pong".data) Scheme.nip44])
  else (st, [])

-- handleGetPublicKey (lines 567-588): returns the USER public key, nip44.
def handleGetPublicKey (st : SignerState) (requestingPubKey : List Char) (req : Request) :
    SignerState × List Outbound :=
  if isClientAuthorized st requestingPubKey then
    (st, [mkOutbound st requestingPubKey (jsonIdResult req.id st.userPublicKeyHex) Scheme.nip44])
  else (st, [])

-- handleNip04Encrypt (lines 590-614): getCipherText with the user key,
-- response encrypted as nip04.
def handleNip04Encrypt (X : ExtDeps) (st : SignerState) (requestingPubKey : List Char)
    (req : Request) : SignerState × List Outbound :=
  if isClientAuthorized st requestingPubKey then
    let thirdPartyPubKey := jsonParam req.params 0
    let plaintext := jsonParam req.params 1
    let encryptedMessage := X.encryptNip04 st.userPrivateKeyHex thirdPartyPubKey plaintext
    (st, [mkOutbound st requestingPubKey (jsonIdResult req.id encryptedMessage) Scheme.nip04])
  else (st, [])

-- handleNip04Decrypt (lines 616-640): decryptNip04Ciphertext with the
-- user key, response encrypted as nip04.
def handleNip04Decrypt (X : ExtDeps) (st : SignerState) (requestingPubKey : List Char)
    (req : Request) : SignerState × List Outbound :=
  if isClientAuthorized st requestingPubKey then
    let thirdPartyPubKey := jsonParam req.params 0
    let cipherText := jsonParam req.params 1
    let decryptedMessage := X.decryptNip04 cipherText st.userPrivateKeyHex thirdPartyPubKey
    (st, [mkOutbound st requestingPubKey (jsonIdResult req.id decryptedMessage) Scheme.nip04])
  else (st, [])

-- handleNip44Encrypt (lines 642-667): response encrypted as nip44.
def handleNip44Encrypt (X : ExtDeps) (st : SignerState) (requestingPubKey : List Char)
    (req : Request) : SignerState × List Outbound :=
  if isClientAuthorized st requestingPubKey then
    let thirdPartyPubKey := jsonParam req.params 0
    let plaintext := jsonParam req.params 1
    let encryptedMessage := X.encryptNip44 plaintext st.userPrivateKeyHex thirdPartyPubKey
    (st, [mkOutbound st requestingPubKey (jsonIdResult req.id encryptedMessage) Scheme.nip44])
  else (st, [])

-- handleNip44Decrypt (lines 669-694): response encrypted as nip44.
def handleNip44Decrypt (X : ExtDeps) (st : SignerState) (requestingPubKey : List Char)
    (req : Request) : SignerState × List Outbound :=
  if isClientAuthorized st requestingPubKey then
    let thirdPartyPubKey := jsonParam req.params 0
    let cipherText := jsonParam req.params 1
    let decryptedMessage := X.decryptNip44 cipherText st.userPrivateKeyHex thirdPartyPubKey
    (st, [mkOutbound st requestingPubKey (jsonIdResult req.id decryptedMessage) Scheme.nip44])
  else (st, [])

-- handleSigningRequestEvent (lines 362-424): abort on empty decryption
-- result, abort on JSON parse failure, then route on the method string;
-- unknown methods are logged and dropped.  Note the response path never
-- consults f.hasIv: each handler hardcodes its response scheme.
def handleSigningRequestEvent (X : ExtDeps) (st : SignerState) (f : Frame) :
    SignerState × List Outbound :=
  if f.decrypted.length = 0 then (st, [])
  else
    match X.parseRequest f.decrypted with
    | none => (st, [])
    | some req =>
      if req.method = "connect".data then handleConnect st f.senderPubKey req
      else if req.method = "sign_event".data then handleSignEvent X st f.senderPubKey req
      else if req.method = "ping".data then handlePing st f.senderPubKey req
      else if req.method = "get_public_key".data then handleGetPublicKey st f.senderPubKey req
      else if req.method = "nip04_encrypt".data then handleNip04Encrypt X st f.senderPubKey req
      else if req.method = "nip04_decrypt".data then handleNip04Decrypt X st f.senderPubKey req
      else if req.method = "nip44_encrypt".data then handleNip44Encrypt X st f.senderPubKey req
      else if req.method = "nip44_decrypt".data then handleNip44Decrypt X st f.senderPubKey req
      else (st, [])

/-! ECDH shared-secret cache (nostr.cpp lines 6-18 and 129-153). -/

structure ECDHCacheEntry where
  privateKeyHex : List Char
  publicKeyHex : List Char
  sharedSecret : List Nat
  timestamp : Nat
deriving DecidableEq

-- The fixed array of 8 entries plus the ring index.
structure ECDHCache where
  entries : List ECDHCacheEntry
  idx : Nat
deriving DecidableEq

def ECDH_CACHE_SIZE : Nat := 8
def ECDH_CACHE_TTL_MS : Nat := 300000

-- The hit condition of getECDHFromCache: both key hexes match and the
-- entry is younger than the TTL (millis arithmetic, no wraparound here).
def ecdhHit (now : Nat) (privateKeyHex publicKeyHex : List Char)
    (e : ECDHCacheEntry) : Bool :=
  e.privateKeyHex == privateKeyHex && e.publicKeyHex == publicKeyHex &&
    decide (now - e.timestamp < ECDH_CACHE_TTL_MS)

-- getECDHFromCache (lines 129-142): scan the slots in order, return the
-- first unexpired match.
def getECDHFromCache (c : ECDHCache) (now : Nat)
    (privateKeyHex publicKeyHex : List Char) : Option (List Nat) :=
  (c.entries.find? (ecdhHit now privateKeyHex publicKeyHex)).map
    (fun e => e.sharedSecret)

-- storeECDHInCache (lines 144-153): overwrite the current ring slot and
-- advance the index modulo the capacity.
def storeECDHInCache (c : ECDHCache) (now : Nat)
    (privateKeyHex publicKeyHex : List Char) (sharedSecret : List Nat) : ECDHCache :=
  { entries := c.entries.set c.idx
      { privateKeyHex := privateKeyHex
        publicKeyHex := publicKeyHex
        sharedSecret := sharedSecret
        timestamp := now }
    idx := (c.idx + 1) % ECDH_CACHE_SIZE }

-- The cache-first derivation pattern used identically in getCipherText
-- (lines 625-635) and decryptNip04Ciphertext (lines 278-288):
-- scalarMult abstracts PrivateKey::ecdh.  The Bool records whether scalar
-- multiplication was invoked on this call.
def ecdhWithCache (scalarMult : List Char → List Char → List Nat) (c : ECDHCache)
    (now : Nat) (privateKeyHex publicKeyHex : List Char) :
    List Nat × ECDHCache × Bool :=
  match getECDHFromCache c now privateKeyHex publicKeyHex with
  | some s => (s, c, false)
  | none =>
    let s := scalarMult privateKeyHex publicKeyHex
    (s, storeECDHInCache c now privateKeyHex publicKeyHex s, true)

/-! Reconnect state machine (remote_signer.cpp websocketEvent lines
    261-343 and processLoop lines 828-912; constants from
    remote_signer.h lines 103-110). -/

def MAX_RECONNECT_ATTEMPTS : Nat := 10
def MIN_RECONNECT_INTERVAL : Nat := 5000

structure ConnState where
  reconnection_attempts : Nat
  manual_reconnect_needed : Bool
  connection_in_progress : Bool
  connected : Bool
  last_reconnect_attempt : Nat
deriving DecidableEq

inductive ConnAction where
  | noAction
  | attemptConnect
  | restart
deriving DecidableEq

-- WStype_DISCONNECTED (lines 263-284): clear the in-progress flag; while
-- under the attempt cap, bump the counter and request a manual reconnect.
def stepDisconnected (s : ConnState) : ConnState :=
  if s.reconnection_attempts < MAX_RECONNECT_ATTEMPTS then
    { s with connected := false
             connection_in_progress := false
             reconnection_attempts := s.reconnection_attempts + 1
             manual_reconnect_needed := true }
  else
    { s with connected := false, connection_in_progress := false }

-- WStype_CONNECTED (lines 286-306): reset the backoff state.
def stepConnected (s : ConnState) : ConnState :=
  { s with connected := true
           connection_in_progress := false
           reconnection_attempts := 0
           manual_reconnect_needed := false }

-- processLoop line 885: backoff capped at 32x the base interval.
def backoffDelay (s : ConnState) : Nat :=
  MIN_RECONNECT_INTERVAL * 2 ^ min s.reconnection_attempts 5

-- The manual-reconnection block of processLoop (lines 884-910): when a
-- reconnect is pending, no connection is in progress and the socket is
-- down, a due retry either attempts a connection (connectToRelay sets
-- connection_in_progress, then the counter is bumped) or, at the attempt
-- cap, calls ESP.restart() - the restart never returns, so the
-- assignments after it in the source are dead code and the state is
-- irrelevant past that point.
def stepProcessLoopTick (s : ConnState) (now : Nat) : ConnState × ConnAction :=
  if s.manual_reconnect_needed && !s.connection_in_progress && !s.connected then
    if backoffDelay s ≤ now - s.last_reconnect_attempt then
      if s.reconnection_attempts < MAX_RECONNECT_ATTEMPTS then
        ({ s with connection_in_progress := true
                  last_reconnect_attempt := now
                  reconnection_attempts := s.reconnection_attempts + 1 },
         ConnAction.attemptConnect)
      else (s, ConnAction.restart)
    else (s, ConnAction.noAction)
  else (s, ConnAction.noAction)

-- One failed reconnection cycle: the socket drops, then the next due tick
-- (exactly when the backoff has elapsed) fires the reconnection attempt.
def cycle (s : ConnState) : ConnState :=
  let s1 := stepDisconnected s
  (stepProcessLoopTick s1 (s1.last_reconnect_attempt + backoffDelay s1)).1

-- The delay processLoop waits after a disconnect before the next attempt.
def delayBeforeNextAttempt (s : ConnState) : Nat :=
  backoffDelay (stepDisconnected s)

-- Boot state: connected, no attempts yet.
def connInit : ConnState :=
  { reconnection_attempts := 0
    manual_reconnect_needed := false
    connection_in_progress := false
    connected := true
    last_reconnect_attempt := 0 }

/-! Concrete instantiations used to exercise the model on closed inputs. -/

-- Trivial but lawful external collaborators: the parser reads the method
-- straight from the decrypted text, signing is concatenation, and
-- verification checks exactly that shape, so the BIP-340 correctness
-- hypothesis holds for them.
def evW : EventFields :=
  { kind := 1, content := "hello".data, tags := "[]".data, created_at := 1700000000 }

def extW : ExtDeps :=
  { sha256hex := fun m => m
    schnorrSign := fun sk m => sk ++ m
    schnorrVerify := fun pk s m => s == pk ++ m
    derivePub := fun sk => sk
    parseRequest := fun d => some { id := "1".data, method := d, params := [] }
    parseEventFields := fun _ => some evW
    encryptNip04 := fun _ _ p => p
    decryptNip04 := fun c _ _ => c
    encryptNip44 := fun p _ _ => p
    decryptNip44 := fun c _ _ => c }

def extNoneW : ExtDeps := { extW with parseRequest := fun _ => none }

def stW : SignerState :=
  { userPrivateKeyHex := "k".data
    userPublicKeyHex := "k".data
    devicePrivateKeyHex := "d".data
    devicePublicKeyHex := "e".data
    secretKey := "s".data
    authorizedClients := "ab".data
    unixTimestamp := 7 }

def stEmptyW : SignerState := { stW with authorizedClients := [] }

def frameW (m : String) : Frame :=
  { senderPubKey := "ab".data, hasIv := true, decrypted := m.data }

def frameSignW : Frame :=
  { senderPubKey := "ab".data, hasIv := false, decrypted := "sign_event".data }

def reqPingW : Request := { id := "1".data, method := "ping".data, params := [] }

def reqSignW : Request := { id := "1".data, method := "sign_event".data, params := [] }

def outPingW : Outbound :=
  mkOutbound stW "ab".data (jsonIdResult "1".data "pong".data) Scheme.nip44

-- The boot secret produced when every esp_random() call returns 10.
def randTenSecret : List Char := refreshSecretKey (fun _ => 10)

def stC3 : SignerState :=
  { userPrivateKeyHex := []
    userPublicKeyHex := []
    devicePrivateKeyHex := []
    devicePublicKeyHex := []
    secretKey := randTenSecret
    authorizedClients := []
    unixTimestamp := 0 }

def pkC3 : List Char := "c1".data

def frameC3 : Frame :=
  { senderPubKey := pkC3, hasIv := true, decrypted := "connect".data }

-- params[1] carrying the right secret with a trailing blank.
def reqC3pad : Request :=
  { id := "1".data, method := "connect".data
    params := ["null".data, randTenSecret ++ " ".data] }

-- params[1] carrying exactly the boot secret.
def reqC3ok : Request :=
  { id := "1".data, method := "connect".data
    params := ["null".data, randTenSecret] }

-- 30 distinct single-character pipe-free clients, then a 31st.
def csW : List (List Char) := (List.range 30).map (fun i => [Char.ofNat (65 + i)])

def cNewW : List Char := "z".data

def opsW : List (List Char) := ["aa".data, "bb".data]

-- An empty 8-slot ECDH cache and a deterministic scalar multiplication.
def cacheW : ECDHCache :=
  { entries := List.replicate 8
      { privateKeyHex := [], publicKeyHex := [], sharedSecret := [], timestamp := 0 }
    idx := 0 }

def multW : List Char → List Char → List Nat := fun _ _ => [1, 2, 3]

def privW : List Char := "p".data
def pubW : List Char := "q".data

-- A connection state past the attempt cap.
def sCapW : ConnState :=
  { reconnection_attempts := 10
    manual_reconnect_needed := true
    connection_in_progress := false
    connected := false
    last_reconnect_attempt := 0 }

/-! Helper lemmas. -/

theorem isPrefixOf_append_self (a b : List Char) : List.isPrefixOf a (a ++ b) = true := by
  induction a with
  | nil => simp [List.isPrefixOf]
  | cons x xs ih => simp [List.isPrefixOf, ih]

theorem strstrFound_of_isPrefixOf (hay needle : List Char)
    (h : needle.isPrefixOf hay = true) : strstrFound hay needle = true := by
  cases hay with
  | nil => simp only [strstrFound, h, Bool.true_or]
  | cons c t => simp only [strstrFound, h, Bool.true_or]

theorem strstrFound_cons (c : Char) (t needle : List Char) :
    strstrFound (c :: t) needle =
      (needle.isPrefixOf (c :: t) || strstrFound t needle) := by
  simp only [strstrFound]

theorem strstrFound_of_occursIn (needle hay : List Char) (h : occursIn needle hay) :
    strstrFound hay needle = true := by
  obtain ⟨s, t, rfl⟩ := h
  induction s with
  | nil =>
    apply strstrFound_of_isPrefixOf
    simpa using isPrefixOf_append_self needle t
  | cons c s ih =>
    have hshape : (c :: s) ++ needle ++ t = c :: (s ++ needle ++ t) := by simp
    rw [hshape, strstrFound_cons, ih, Bool.or_true]

theorem arduinoContains_of_occursIn (needle hay : List Char) (hne : hay ≠ [])
    (h : occursIn needle hay) : arduinoContains hay needle = true := by
  cases hay with
  | nil => exact absurd rfl hne
  | cons c t => simpa [arduinoContains] using strstrFound_of_occursIn needle (c :: t) h

theorem takeWhile_append_all (p : Nat → Bool) (l1 l2 : List Nat)
    (h : ∀ x ∈ l1, p x = true) :
    (l1 ++ l2).takeWhile p = l1 ++ l2.takeWhile p := by
  induction l1 with
  | nil => simp
  | cons a l ih =>
    have ha : p a = true := h a (List.mem_cons_self a l)
    simp only [List.cons_append, List.takeWhile_cons, ha, if_true]
    rw [ih (fun x hx => h x (List.mem_cons_of_mem a hx))]

-- Composing encryptData with decryptData under an AES round trip leaves
-- the plaintext with the whole pad block still attached: decryptData has
-- no unpadding step.
theorem decryptData_encryptData (E D : List Nat → List Nat)
    (hED : ∀ x, D (E x) = x) (msg : List Nat) (hnz : ∀ b ∈ msg, b ≠ 0) :
    decryptDataBytes D (encryptDataBytes E msg) =
      msg ++ List.replicate (if msg.length % 16 == 0 then 16 else 16 - msg.length % 16)
        (if msg.length % 16 == 0 then 16 else 16 - msg.length % 16) := by
  unfold decryptDataBytes encryptDataBytes stringToByteArray
  rw [hED]
  have hmod : msg.length % 16 < 16 := Nat.mod_lt _ (by norm_num)
  set p := if msg.length % 16 == 0 then 16 else 16 - msg.length % 16 with hp
  have hp1 : 1 ≤ p := by
    rw [hp]; split <;> omega
  have htw : msg.takeWhile (fun b => b != 0) = msg :=
    List.takeWhile_eq_self_iff.mpr (fun a ha => by simpa using hnz a ha)
  rw [htw, takeWhile_append_all _ _ _ (fun x hx => by simpa using hnz x hx)]
  have hrep : (List.replicate p p).takeWhile (fun b => b != 0) = List.replicate p p :=
    List.takeWhile_eq_self_iff.mpr (fun a ha => by
      have : a = p := List.eq_of_mem_replicate ha
      simp [this]; omega)
  rw [hrep]

theorem joinClients_cons (c : List Char) (cs : List (List Char)) (h : cs ≠ []) :
    joinClients (c :: cs) = c ++ '|' :: joinClients cs := by
  cases cs with
  | nil => exact absurd rfl h
  | cons d ds => rfl

theorem getAuthorizedClientCount_le (s : List Char) :
    getAuthorizedClientCount s ≤ 1 + (s.filter (fun c => c == '|')).length := by
  unfold getAuthorizedClientCount
  split <;> omega

theorem filter_pipe_eq_nil (c : List Char) (h : '|' ∉ c) :
    c.filter (fun x => x == '|') = [] :=
  List.filter_eq_nil_iff.mpr (fun a ha => by
    simp only [beq_iff_eq]
    intro hEq
    exact h (hEq ▸ ha))

theorem count_append_pipe (s c : List Char) (hs : s ≠ []) (hc : '|' ∉ c) :
    getAuthorizedClientCount (s ++ '|' :: c) = getAuthorizedClientCount s + 1 := by
  unfold getAuthorizedClientCount
  have hlen : s.length ≠ 0 := by simpa using hs
  have hlen2 : (s ++ '|' :: c).length ≠ 0 := by simp
  rw [if_neg hlen2, if_neg hlen]
  simp only [List.filter_append, filter_pipe_eq_nil c hc, List.filter_cons]
  simp only [show (('|' : Char) == '|') = true from by decide, if_true]
  simp only [List.length_append, List.length_cons, List.length_nil]
  omega

theorem count_nopipe_le_one (c : List Char) (hc : '|' ∉ c) :
    getAuthorizedClientCount c ≤ 1 := by
  unfold getAuthorizedClientCount
  split
  · omega
  · rw [filter_pipe_eq_nil c hc]; simp

theorem count_removeOldest (s : List Char) (hs : s ≠ []) :
    getAuthorizedClientCount (removeOldestClient s) + 1 ≤ getAuthorizedClientCount s := by
  induction s with
  | nil => exact absurd rfl hs
  | cons c t ih =>
    unfold removeOldestClient
    by_cases hc : c = '|'
    · subst hc
      have hdw : List.dropWhile (fun x => x != '|') ('|' :: t) = '|' :: t := by
        simp [List.dropWhile_cons]
      rw [hdw]
      simp only [List.drop_one, List.tail_cons]
      have h1 := getAuthorizedClientCount_le t
      unfold getAuthorizedClientCount at h1 ⊢
      rw [if_neg (by simp : ('|' :: t).length ≠ 0)]
      simp only [List.filter_cons]
      simp only [show (('|' : Char) == '|') = true from by decide, if_true]
      simp only [List.length_cons]
      omega
    · have hdw : List.dropWhile (fun x => x != '|') (c :: t) =
          List.dropWhile (fun x => x != '|') t := by
        simp [List.dropWhile_cons, bne_iff_ne, hc]
      rw [hdw]
      by_cases ht : t = []
      · subst ht
        unfold getAuthorizedClientCount
        simp
      · have := ih ht
        unfold removeOldestClient at this
        have hcount : getAuthorizedClientCount (c :: t) = getAuthorizedClientCount t := by
          unfold getAuthorizedClientCount
          rw [if_neg (by simp : (c :: t).length ≠ 0), if_neg (by simpa using ht)]
          simp only [List.filter_cons]
          simp [show ((c == '|') = false) from by simpa [beq_iff_eq] using hc]
        omega

theorem addAuthorizedClient_cap_step (s c : List Char) (hc : '|' ∉ c)
    (hs : getAuthorizedClientCount s ≤ MAX_AUTHORIZED_CLIENTS) :
    getAuthorizedClientCount (addAuthorizedClient s c) ≤ MAX_AUTHORIZED_CLIENTS := by
  unfold addAuthorizedClient
  split
  · exact hs
  · set afterEvict :=
      if MAX_AUTHORIZED_CLIENTS ≤ getAuthorizedClientCount s then
        removeOldestClient s
      else s with hae
    have haeCount : getAuthorizedClientCount afterEvict + 1 ≤ MAX_AUTHORIZED_CLIENTS := by
      rw [hae]
      split
      · rename_i hcap
        have hsne : s ≠ [] := by
          intro hnil
          rw [hnil] at hcap
          simp [getAuthorizedClientCount, MAX_AUTHORIZED_CLIENTS] at hcap
        have := count_removeOldest s hsne
        omega
      · rename_i hncap
        omega
    change getAuthorizedClientCount
      ((if 0 < afterEvict.length then afterEvict ++ ['|'] else afterEvict) ++ c) ≤
      MAX_AUTHORIZED_CLIENTS
    split
    · rename_i hlen
      have hne : afterEvict ≠ [] := by
        intro hnil
        rw [hnil] at hlen
        simp at hlen
      rw [show afterEvict ++ ['|'] ++ c = afterEvict ++ '|' :: c by simp]
      rw [count_append_pipe afterEvict c hne hc]
      exact haeCount
    · rename_i hlen
      have hnil : afterEvict = [] := by
        cases hae2 : afterEvict with
        | nil => rfl
        | cons x xs => rw [hae2] at hlen; simp at hlen
      rw [hnil, List.nil_append]
      have := count_nopipe_le_one c hc
      unfold MAX_AUTHORIZED_CLIENTS
      omega

theorem foldl_add_cap (ops : List (List Char)) :
    ∀ s : List Char, (∀ c ∈ ops, '|' ∉ c) →
    getAuthorizedClientCount s ≤ MAX_AUTHORIZED_CLIENTS →
    getAuthorizedClientCount (ops.foldl addAuthorizedClient s) ≤ MAX_AUTHORIZED_CLIENTS := by
  induction ops with
  | nil => intro s _ hs; simpa using hs
  | cons c ops ih =>
    intro s hops hs
    simp only [List.foldl_cons]
    exact ih (addAuthorizedClient s c)
      (fun x hx => hops x (List.mem_cons_of_mem c hx))
      (addAuthorizedClient_cap_step s c (hops c (List.mem_cons_self c ops)) hs)

theorem filter_pipe_joinClients (cs : List (List Char)) (hne : cs ≠ [])
    (hcs : ∀ x ∈ cs, '|' ∉ x) :
    ((joinClients cs).filter (fun x => x == '|')).length = cs.length - 1 := by
  induction cs with
  | nil => exact absurd rfl hne
  | cons c cs ih =>
    cases cs with
    | nil =>
      simp only [joinClients, List.length_cons, List.length_nil]
      rw [filter_pipe_eq_nil c (hcs c (List.mem_cons_self c []))]
      rfl
    | cons d ds =>
      rw [joinClients_cons c (d :: ds) (by simp)]
      rw [List.filter_append, List.filter_cons]
      simp only [show (('|' : Char) == '|') = true from by decide, if_true]
      rw [filter_pipe_eq_nil c (hcs c (List.mem_cons_self c (d :: ds)))]
      have := ih (by simp) (fun x hx => hcs x (List.mem_cons_of_mem c hx))
      simp only [List.nil_append, List.length_cons] at this ⊢
      omega

theorem joinClients_ne_nil (cs : List (List Char)) (h2 : 2 ≤ cs.length)
    (hcs : ∀ x ∈ cs, '|' ∉ x) : joinClients cs ≠ [] := by
  intro hnil
  have := filter_pipe_joinClients cs (by intro h; rw [h] at h2; simp at h2) hcs
  rw [hnil] at this
  simp only [List.filter_nil, List.length_nil] at this
  omega

theorem dropWhile_append_all (p : Char → Bool) (l1 l2 : List Char)
    (h : ∀ x ∈ l1, p x = true) :
    (l1 ++ l2).dropWhile p = l2.dropWhile p := by
  induction l1 with
  | nil => simp
  | cons a l ih =>
    simp only [List.cons_append, List.dropWhile_cons, h a (List.mem_cons_self a l), if_true]
    exact ih (fun x hx => h x (List.mem_cons_of_mem a hx))

theorem removeOldest_joinClients (c0 : List Char) (rest : List (List Char))
    (hrest : rest ≠ []) (hc0 : '|' ∉ c0) :
    removeOldestClient (joinClients (c0 :: rest)) = joinClients rest := by
  rw [joinClients_cons c0 rest hrest]
  unfold removeOldestClient
  rw [dropWhile_append_all _ c0 ('|' :: joinClients rest)
    (fun x hx => by
      simp only [bne_iff_ne, ne_eq]
      intro hEq
      exact hc0 (hEq ▸ hx))]
  rw [List.dropWhile_cons]
  simp

theorem joinClients_append_singleton (xs : List (List Char)) (c : List Char)
    (hxs : xs ≠ []) :
    joinClients (xs ++ [c]) = joinClients xs ++ '|' :: c := by
  induction xs with
  | nil => exact absurd rfl hxs
  | cons x xs ih =>
    cases xs with
    | nil => rfl
    | cons y ys =>
      rw [show (x :: y :: ys) ++ [c] = x :: ((y :: ys) ++ [c]) by simp]
      rw [joinClients_cons x ((y :: ys) ++ [c]) (by simp)]
      rw [joinClients_cons x (y :: ys) (by simp)]
      rw [ih (by simp)]
      simp

theorem addAuthorizedClient_evicts_oldest (cs : List (List Char)) (c : List Char)
    (hlen : cs.length = 30) (hcs : ∀ x ∈ cs, '|' ∉ x)
    (hnc : arduinoContains (joinClients cs) c = false) :
    addAuthorizedClient (joinClients cs) c = joinClients (cs.tail ++ [c]) := by
  cases cs with
  | nil => simp at hlen
  | cons c0 rest =>
    have hrestlen : rest.length = 29 := by simpa using hlen
    have hrestne : rest ≠ [] := by
      intro h; rw [h] at hrestlen; simp at hrestlen
    have hjoin_ne : joinClients (c0 :: rest) ≠ [] :=
      joinClients_ne_nil (c0 :: rest) (by simp [hrestlen]) hcs
    have hcount : getAuthorizedClientCount (joinClients (c0 :: rest)) = 30 := by
      unfold getAuthorizedClientCount
      rw [if_neg (by simpa using hjoin_ne)]
      rw [filter_pipe_joinClients (c0 :: rest) (by simp) hcs]
      simp [hrestlen]
    have hrest_ne_join : joinClients rest ≠ [] := by
      apply joinClients_ne_nil rest (by omega)
      exact fun x hx => hcs x (List.mem_cons_of_mem c0 hx)
    unfold addAuthorizedClient
    rw [hnc]
    simp only [Bool.false_eq_true, if_false]
    rw [hcount]
    simp only [show (MAX_AUTHORIZED_CLIENTS ≤ 30) = True from by
      simp [MAX_AUTHORIZED_CLIENTS], if_true]
    rw [removeOldest_joinClients c0 rest hrestne (hcs c0 (List.mem_cons_self c0 rest))]
    rw [if_pos (by simpa [List.length_pos] using hrest_ne_join)]
    rw [List.tail_cons, joinClients_append_singleton rest c hrestne]
    simp

theorem contains_append_self (base pk : List Char) (hpk : pk ≠ []) :
    arduinoContains (base ++ pk) pk = true := by
  apply arduinoContains_of_occursIn
  · intro hnil
    rcases List.append_eq_nil.mp hnil with ⟨_, hpknil⟩
    exact hpk hpknil
  · exact ⟨base, [], by simp⟩

theorem addAuthorizedClient_contains_self (s pk : List Char) (hpk : pk ≠ [])
    (h : arduinoContains s pk = false) :
    arduinoContains (addAuthorizedClient s pk) pk = true := by
  unfold addAuthorizedClient
  rw [h]
  simp only [Bool.false_eq_true, if_false]
  exact contains_append_self _ pk hpk

theorem refreshSecretKey_length (rand : Nat → Nat) :
    (refreshSecretKey rand).length = 64 := by
  simp [refreshSecretKey]

theorem refreshSecretKey_chars (rand : Nat → Nat) :
    ∀ ch ∈ refreshSecretKey rand, ch ∈ hexDigits := by
  intro ch hch
  simp only [refreshSecretKey, List.mem_map] at hch
  obtain ⟨i, _, rfl⟩ := hch
  have hlt : rand i % 16 < hexDigits.length := by
    have := Nat.mod_lt (rand i) (show 0 < 16 by norm_num)
    simpa [hexDigits] using this
  rw [List.getD_eq_getElem _ _ hlt]
  exact List.getElem_mem hlt

theorem find?_append_of_none {α : Type} (p : α → Bool) (l1 l2 : List α)
    (h : ∀ x ∈ l1, p x = false) :
    (l1 ++ l2).find? p = l2.find? p := by
  induction l1 with
  | nil => simp
  | cons a l ih =>
    simp only [List.cons_append, List.find?_cons, h a (List.mem_cons_self a l)]
    exact ih (fun x hx => h x (List.mem_cons_of_mem a hx))

theorem ecdhHit_mono_false (priv pub : List Char) (e : ECDHCacheEntry) (t1 t2 : Nat)
    (hts : e.timestamp ≤ t1) (h12 : t1 ≤ t2) (h : ecdhHit t1 priv pub e = false) :
    ecdhHit t2 priv pub e = false := by
  unfold ecdhHit at h ⊢
  rw [Bool.eq_false_iff] at h ⊢
  intro hcontra
  apply h
  simp only [Bool.and_eq_true, beq_iff_eq, decide_eq_true_eq] at hcontra ⊢
  obtain ⟨⟨ha, hb⟩, hc⟩ := hcontra
  exact ⟨⟨ha, hb⟩, by omega⟩

theorem handleConnect_scheme (st : SignerState) (pk : List Char) (req : Request) :
    ∀ o ∈ (handleConnect st pk req).2, o.scheme = Scheme.nip44 := by
  intro o ho
  simp only [handleConnect] at ho
  split at ho
  · simp only [List.mem_singleton] at ho
    rw [ho]
    rfl
  · simp at ho

theorem handleSignEvent_scheme (X : ExtDeps) (st : SignerState) (pk : List Char)
    (req : Request) : ∀ o ∈ (handleSignEvent X st pk req).2, o.scheme = Scheme.nip44 := by
  intro o ho
  simp only [handleSignEvent] at ho
  split at ho
  · split at ho
    · simp at ho
    · simp only [List.mem_singleton] at ho
      rw [ho]
      rfl
  · simp at ho

theorem handlePing_scheme (st : SignerState) (pk : List Char) (req : Request) :
    ∀ o ∈ (handlePing st pk req).2, o.scheme = Scheme.nip44 := by
  intro o ho
  simp only [handlePing] at ho
  split at ho
  · simp only [List.mem_singleton] at ho
    rw [ho]
    rfl
  · simp at ho

theorem handleGetPublicKey_scheme (st : SignerState) (pk : List Char) (req : Request) :
    ∀ o ∈ (handleGetPublicKey st pk req).2, o.scheme = Scheme.nip44 := by
  intro o ho
  simp only [handleGetPublicKey] at ho
  split at ho
  · simp only [List.mem_singleton] at ho
    rw [ho]
    rfl
  · simp at ho

theorem handleNip04Encrypt_scheme (X : ExtDeps) (st : SignerState) (pk : List Char)
    (req : Request) : ∀ o ∈ (handleNip04Encrypt X st pk req).2, o.scheme = Scheme.nip04 := by
  intro o ho
  simp only [handleNip04Encrypt] at ho
  split at ho
  · simp only [List.mem_singleton] at ho
    rw [ho]
    rfl
  · simp at ho

theorem handleNip04Decrypt_scheme (X : ExtDeps) (st : SignerState) (pk : List Char)
    (req : Request) : ∀ o ∈ (handleNip04Decrypt X st pk req).2, o.scheme = Scheme.nip04 := by
  intro o ho
  simp only [handleNip04Decrypt] at ho
  split at ho
  · simp only [List.mem_singleton] at ho
    rw [ho]
    rfl
  · simp at ho

theorem handleNip44Encrypt_scheme (X : ExtDeps) (st : SignerState) (pk : List Char)
    (req : Request) : ∀ o ∈ (handleNip44Encrypt X st pk req).2, o.scheme = Scheme.nip44 := by
  intro o ho
  simp only [handleNip44Encrypt] at ho
  split at ho
  · simp only [List.mem_singleton] at ho
    rw [ho]
    rfl
  · simp at ho

theorem handleNip44Decrypt_scheme (X : ExtDeps) (st : SignerState) (pk : List Char)
    (req : Request) : ∀ o ∈ (handleNip44Decrypt X st pk req).2, o.scheme = Scheme.nip44 := by
  intro o ho
  simp only [handleNip44Decrypt] at ho
  split at ho
  · simp only [List.mem_singleton] at ho
    rw [ho]
    rfl
  · simp at ho

theorem handleSignEvent_unauth (X : ExtDeps) (st : SignerState) (pk : List Char)
    (req : Request) (h : isClientAuthorized st pk = false) :
    handleSignEvent X st pk req = (st, []) := by
  simp [handleSignEvent, h]

theorem handlePing_unauth (st : SignerState) (pk : List Char) (req : Request)
    (h : isClientAuthorized st pk = false) : handlePing st pk req = (st, []) := by
  simp [handlePing, h]

theorem handleGetPublicKey_unauth (st : SignerState) (pk : List Char) (req : Request)
    (h : isClientAuthorized st pk = false) : handleGetPublicKey st pk req = (st, []) := by
  simp [handleGetPublicKey, h]

theorem handleNip04Encrypt_unauth (X : ExtDeps) (st : SignerState) (pk : List Char)
    (req : Request) (h : isClientAuthorized st pk = false) :
    handleNip04Encrypt X st pk req = (st, []) := by
  simp [handleNip04Encrypt, h]

theorem handleNip04Decrypt_unauth (X : ExtDeps) (st : SignerState) (pk : List Char)
    (req : Request) (h : isClientAuthorized st pk = false) :
    handleNip04Decrypt X st pk req = (st, []) := by
  simp [handleNip04Decrypt, h]

theorem handleNip44Encrypt_unauth (X : ExtDeps) (st : SignerState) (pk : List Char)
    (req : Request) (h : isClientAuthorized st pk = false) :
    handleNip44Encrypt X st pk req = (st, []) := by
  simp [handleNip44Encrypt, h]

theorem handleNip44Decrypt_unauth (X : ExtDeps) (st : SignerState) (pk : List Char)
    (req : Request) (h : isClientAuthorized st pk = false) :
    handleNip44Decrypt X st pk req = (st, []) := by
  simp [handleNip44Decrypt, h]

-- Dispatch reduction once the decrypted text is nonempty and parses.
theorem handleSigningRequestEvent_parsed (X : ExtDeps) (st : SignerState) (f : Frame)
    (req : Request) (hne : f.decrypted ≠ []) (hp : X.parseRequest f.decrypted = some req) :
    handleSigningRequestEvent X st f =
      (if req.method = "connect".data then handleConnect st f.senderPubKey req
       else if req.method = "sign_event".data then handleSignEvent X st f.senderPubKey req
       else if req.method = "ping".data then handlePing st f.senderPubKey req
       else if req.method = "get_public_key".data then handleGetPublicKey st f.senderPubKey req
       else if req.method = "nip04_encrypt".data then handleNip04Encrypt X st f.senderPubKey req
       else if req.method = "nip04_decrypt".data then handleNip04Decrypt X st f.senderPubKey req
       else if req.method = "nip44_encrypt".data then handleNip44Encrypt X st f.senderPubKey req
       else if req.method = "nip44_decrypt".data then handleNip44Decrypt X st f.senderPubKey req
       else (st, [])) := by
  unfold handleSigningRequestEvent
  rw [if_neg (by simpa using hne), hp]

/-! Claim theorems. -/

/-- C1: the spec claims nip04Decrypt inverts nip04Encrypt for every
plaintext of length 1 to 4096 (pad-length-byte padding, unpadding on
decrypt).  The code has no unpadding step: for a 16-byte plaintext the
decrypt path returns the plaintext followed by the whole 16-byte pad block
(pad byte 0x10, which trim does not remove), so the round trip is not the
identity.  The cipher is instantiated with the identity, which satisfies
the AES-CBC inverse property the round trip relies on; by
decryptData_encryptData the failure is independent of the cipher. -/
theorem nip04_roundtrip_pad_bug :
    nip04RoundTripBytes id id (List.replicate 16 97) =
      List.replicate 16 97 ++ List.replicate 16 16 ∧
    nip04RoundTripBytes id id (List.replicate 16 97) ≠ List.replicate 16 97 := by
  decide

/-- C2 counterexample: a ping request that arrived under NIP-04 (its raw
event text contains the "?iv=" marker, hasIv = true) is answered with a
NIP-44 encrypted response, not a NIP-04 one: the handlers never consult
the marker when choosing the response scheme. -/
theorem response_scheme_counterexample :
    (frameW "ping").hasIv = true ∧
    (handleSigningRequestEvent extW stW (frameW "ping")).2.map Outbound.scheme =
      [Scheme.nip44] ∧
    Scheme.nip44 ≠ Scheme.nip04 := by
  decide

/-- C2 amended: the response scheme is a function of the request method
alone, never of the scheme the request arrived under: nip04_encrypt and
nip04_decrypt responses are NIP-04 encrypted, every other handled method
responds NIP-44 encrypted. -/
theorem response_scheme_per_method :
    ∀ (X : ExtDeps) (st : SignerState) (f : Frame) (req : Request),
    X.parseRequest f.decrypted = some req →
    ∀ o ∈ (handleSigningRequestEvent X st f).2,
      (o.scheme = Scheme.nip04 ↔
        (req.method = "nip04_encrypt".data ∨ req.method = "nip04_decrypt".data)) := by
  intro X st f req hp o ho
  by_cases hne : f.decrypted = []
  · unfold handleSigningRequestEvent at ho
    rw [if_pos (by simp [hne])] at ho
    simp at ho
  · rw [handleSigningRequestEvent_parsed X st f req hne hp] at ho
    by_cases h1 : req.method = "connect".data
    · rw [if_pos h1] at ho
      rw [handleConnect_scheme st f.senderPubKey req o ho, h1]
      decide
    · rw [if_neg h1] at ho
      by_cases h2 : req.method = "sign_event".data
      · rw [if_pos h2] at ho
        rw [handleSignEvent_scheme X st f.senderPubKey req o ho, h2]
        decide
      · rw [if_neg h2] at ho
        by_cases h3 : req.method = "ping".data
        · rw [if_pos h3] at ho
          rw [handlePing_scheme st f.senderPubKey req o ho, h3]
          decide
        · rw [if_neg h3] at ho
          by_cases h4 : req.method = "get_public_key".data
          · rw [if_pos h4] at ho
            rw [handleGetPublicKey_scheme st f.senderPubKey req o ho, h4]
            decide
          · rw [if_neg h4] at ho
            by_cases h5 : req.method = "nip04_encrypt".data
            · rw [if_pos h5] at ho
              rw [handleNip04Encrypt_scheme X st f.senderPubKey req o ho]
              simp [h5]
            · rw [if_neg h5] at ho
              by_cases h6 : req.method = "nip04_decrypt".data
              · rw [if_pos h6] at ho
                rw [handleNip04Decrypt_scheme X st f.senderPubKey req o ho]
                simp [h6]
              · rw [if_neg h6] at ho
                by_cases h7 : req.method = "nip44_encrypt".data
                · rw [if_pos h7] at ho
                  rw [handleNip44Encrypt_scheme X st f.senderPubKey req o ho]
                  simp [h5, h6]
                · rw [if_neg h7] at ho
                  by_cases h8 : req.method = "nip44_decrypt".data
                  · rw [if_pos h8] at ho
                    rw [handleNip44Decrypt_scheme X st f.senderPubKey req o ho]
                    simp [h5, h6]
                  · rw [if_neg h8] at ho
                    simp at ho

/-- C2 amended witness: the ping response in the concrete run is NIP-44
encrypted and ping is not one of the nip04 methods. -/
theorem response_scheme_per_method_witness :
    outPingW.scheme = Scheme.nip04 ↔
      (reqPingW.method = "nip04_encrypt".data ∨ reqPingW.method = "nip04_decrypt".data) :=
  response_scheme_per_method extW stW (frameW "ping") reqPingW (by decide) outPingW (by decide)

/-- C3 counterexample: the claim requires authorization if and only if
params[1] is EXACTLY the session secret.  checkClientIsAuthorized trims
the received secret first, so params[1] consisting of the boot secret plus
a trailing blank is not equal to the secret yet still authorizes the
client and adds it to the set. -/
theorem connect_secret_exact_match_counterexample :
    randTenSecret ++ " ".data ≠ stC3.secretKey ∧
    isClientAuthorized stC3 pkC3 = false ∧
    (checkClientIsAuthorized stC3 pkC3 (randTenSecret ++ " ".data)).1 = true ∧
    isClientAuthorized (checkClientIsAuthorized stC3 pkC3 (randTenSecret ++ " ".data)).2
      pkC3 = true := by
  decide

/-- C3 amended: for a connect request from a nonempty pubkey that is not
yet authorized, the requester is added to the Authorized Client set if and
only if params[1] AFTER WHITESPACE TRIMMING equals the current session
secret; with a matching trimmed secret the pubkey is contained in the set
afterward (it was absent before by hypothesis), with a non-matching one
the state is unchanged and no response is produced; and the session secret
refreshSecretKey generates is a 64-character string over the lowercase hex
alphabet. -/
theorem connect_secret_trimmed_authorization :
    ∀ (st : SignerState) (f : Frame) (req : Request),
    f.senderPubKey ≠ [] →
    isClientAuthorized st f.senderPubKey = false →
    ((isClientAuthorized (handleConnect st f.senderPubKey req).1 f.senderPubKey = true ↔
        arduinoTrim (jsonParam req.params 1) = st.secretKey)
     ∧ (arduinoTrim (jsonParam req.params 1) ≠ st.secretKey →
         handleConnect st f.senderPubKey req = (st, []))
     ∧ ∀ rand : Nat → Nat,
         (refreshSecretKey rand).length = 64 ∧
         ∀ ch ∈ refreshSecretKey rand, ch ∈ hexDigits) := by
  intro st f req hpk hauth
  by_cases hsec : arduinoTrim (jsonParam req.params 1) = st.secretKey
  · have hcheck : checkClientIsAuthorized st f.senderPubKey (jsonParam req.params 1) =
        (true, { st with authorizedClients :=
          addAuthorizedClient st.authorizedClients f.senderPubKey }) := by
      unfold checkClientIsAuthorized
      rw [if_neg (by simp [hauth]), if_pos hsec]
    refine ⟨?_, fun hc => absurd hsec hc, fun rand =>
      ⟨refreshSecretKey_length rand, refreshSecretKey_chars rand⟩⟩
    constructor
    · intro _
      exact hsec
    · intro _
      simp only [handleConnect, hcheck]
      split
      · exact addAuthorizedClient_contains_self st.authorizedClients f.senderPubKey hpk hauth
      · exact addAuthorizedClient_contains_self st.authorizedClients f.senderPubKey hpk hauth
  · have hcheck : checkClientIsAuthorized st f.senderPubKey (jsonParam req.params 1) =
        (false, st) := by
      unfold checkClientIsAuthorized
      rw [if_neg (by simp [hauth]), if_neg hsec]
    have hconn : handleConnect st f.senderPubKey req = (st, []) := by
      simp only [handleConnect, hcheck]
      simp
    refine ⟨?_, fun _ => hconn, fun rand =>
      ⟨refreshSecretKey_length rand, refreshSecretKey_chars rand⟩⟩
    rw [hconn]
    simp only [hauth]
    constructor
    · intro hfalse
      exact absurd hfalse (by simp)
    · intro hc
      exact absurd hc hsec

/-- C3 amended witness: with the boot secret passed exactly in params[1],
the previously absent client c1 is authorized afterward. -/
theorem connect_secret_trimmed_authorization_witness :
    isClientAuthorized (handleConnect stC3 frameC3.senderPubKey reqC3ok).1
      frameC3.senderPubKey = true ↔
      arduinoTrim (jsonParam reqC3ok.params 1) = stC3.secretKey :=
  (connect_secret_trimmed_authorization stC3 frameC3 reqC3ok (by decide) (by decide)).1

/-- C4: a request for any method other than connect from a pubkey the
authorization membership test rejects produces no outbound event and
leaves the whole signer state (in particular the Authorized Client set)
unchanged. -/
theorem unauthorized_request_dropped :
    ∀ (X : ExtDeps) (st : SignerState) (f : Frame) (req : Request),
    X.parseRequest f.decrypted = some req →
    req.method ≠ "connect".data →
    isClientAuthorized st f.senderPubKey = false →
    handleSigningRequestEvent X st f = (st, []) := by
  intro X st f req hp hm hauth
  by_cases hne : f.decrypted = []
  · unfold handleSigningRequestEvent
    rw [if_pos (by simp [hne])]
  · rw [handleSigningRequestEvent_parsed X st f req hne hp]
    rw [if_neg hm]
    by_cases h2 : req.method = "sign_event".data
    · rw [if_pos h2]; exact handleSignEvent_unauth X st f.senderPubKey req hauth
    · rw [if_neg h2]
      by_cases h3 : req.method = "ping".data
      · rw [if_pos h3]; exact handlePing_unauth st f.senderPubKey req hauth
      · rw [if_neg h3]
        by_cases h4 : req.method = "get_public_key".data
        · rw [if_pos h4]; exact handleGetPublicKey_unauth st f.senderPubKey req hauth
        · rw [if_neg h4]
          by_cases h5 : req.method = "nip04_encrypt".data
          · rw [if_pos h5]; exact handleNip04Encrypt_unauth X st f.senderPubKey req hauth
          · rw [if_neg h5]
            by_cases h6 : req.method = "nip04_decrypt".data
            · rw [if_pos h6]; exact handleNip04Decrypt_unauth X st f.senderPubKey req hauth
            · rw [if_neg h6]
              by_cases h7 : req.method = "nip44_encrypt".data
              · rw [if_pos h7]; exact handleNip44Encrypt_unauth X st f.senderPubKey req hauth
              · rw [if_neg h7]
                by_cases h8 : req.method = "nip44_decrypt".data
                · rw [if_pos h8]; exact handleNip44Decrypt_unauth X st f.senderPubKey req hauth
                · rw [if_neg h8]

/-- C4 witness: an unauthorized ping (empty Authorized Client set) is
dropped without a response and without a state change. -/
theorem unauthorized_request_dropped_witness :
    handleSigningRequestEvent extW stEmptyW (frameW "ping") = (stEmptyW, []) :=
  unauthorized_request_dropped extW stEmptyW (frameW "ping") reqPingW
    (by decide) (by decide) (by decide)

/-- C9: an inbound frame whose decryption result is empty, or whose
decrypted payload fails JSON parsing, is dropped: the dispatcher returns
with no outbound event and an unchanged state (the source shows a local
UI toast and returns). -/
theorem decrypt_or_parse_failure_dropped :
    ∀ (X : ExtDeps) (st : SignerState) (f : Frame),
    (f.decrypted = [] ∨ X.parseRequest f.decrypted = none) →
    handleSigningRequestEvent X st f = (st, []) := by
  intro X st f h
  unfold handleSigningRequestEvent
  rcases h with h | h
  · rw [if_pos (by simp [h])]
  · by_cases hlen : f.decrypted.length = 0
    · rw [if_pos hlen]
    · rw [if_neg hlen, h]

/-- C9 witness: a frame that decrypts to garbage the parser rejects is
dropped with no outbound event. -/
theorem decrypt_or_parse_failure_dropped_witness :
    handleSigningRequestEvent extNoneW stW (frameW "x") = (stW, []) :=
  decrypt_or_parse_failure_dropped extNoneW stW (frameW "x") (Or.inr (by decide))

/-- C5: first, starting from the empty store, any sequence of
addAuthorizedClient calls with pipe-free client strings keeps the client
count at or below the capacity of 30; second, adding a 31st client not
yet present to a store holding exactly 30 pipe-free entries evicts
exactly the oldest (first) entry, keeping the other 29 and appending the
new one. -/
theorem authorized_client_capacity :
    (∀ ops : List (List Char), (∀ c ∈ ops, '|' ∉ c) →
      getAuthorizedClientCount (ops.foldl addAuthorizedClient []) ≤ MAX_AUTHORIZED_CLIENTS)
    ∧ (∀ (cs : List (List Char)) (c : List Char),
        cs.length = 30 → (∀ x ∈ cs, '|' ∉ x) →
        arduinoContains (joinClients cs) c = false →
        addAuthorizedClient (joinClients cs) c = joinClients (cs.tail ++ [c])) := by
  constructor
  · intro ops hops
    exact foldl_add_cap ops [] hops (by simp [getAuthorizedClientCount, MAX_AUTHORIZED_CLIENTS])
  · intro cs c hlen hcs hnc
    exact addAuthorizedClient_evicts_oldest cs c hlen hcs hnc

/-- C5 witness: two pipe-free additions stay within capacity, and adding
a 31st client z to a store of 30 single-character clients drops exactly
the first entry and appends z. -/
theorem authorized_client_capacity_witness :
    getAuthorizedClientCount (opsW.foldl addAuthorizedClient []) ≤ MAX_AUTHORIZED_CLIENTS ∧
    addAuthorizedClient (joinClients csW) cNewW = joinClients (csW.tail ++ [cNewW]) :=
  ⟨authorized_client_capacity.1 opsW (by decide),
   authorized_client_capacity.2 csW cNewW (by decide) (by decide) (by decide)⟩

/-- C6: a sign_event request from an authorized pubkey with parseable
event fields is answered with the event built by getNote from the USER
keypair: its id field is the hex SHA-256 of the serialized array form
[0,pubkey,created_at,kind,tags,content] (content escaped as the source
escapes it), its sig is the Schnorr signature of that hash under the user
private key, and - for any Schnorr implementation satisfying BIP-340
correctness and a user public key derived from the user private key - the
signature verifies against the pubkey field of the event. -/
theorem sign_event_id_and_signature :
    ∀ (X : ExtDeps) (st : SignerState) (f : Frame) (req : Request) (ev : EventFields),
    (∀ sk m, X.schnorrVerify (X.derivePub sk) (X.schnorrSign sk m) m = true) →
    st.userPublicKeyHex = X.derivePub st.userPrivateKeyHex →
    f.decrypted ≠ [] →
    X.parseRequest f.decrypted = some req →
    req.method = "sign_event".data →
    isClientAuthorized st f.senderPubKey = true →
    X.parseEventFields (jsonParam req.params 0) = some ev →
    (handleSigningRequestEvent X st f =
      (st, [mkOutbound st f.senderPubKey
        (jsonIdResult req.id (escapeResponseEvent (renderNote
          (buildNote X st.userPrivateKeyHex st.userPublicKeyHex
            ev.created_at ev.content ev.kind ev.tags))))
        Scheme.nip44])
     ∧ (buildNote X st.userPrivateKeyHex st.userPublicKeyHex
          ev.created_at ev.content ev.kind ev.tags).id =
        X.sha256hex (noteMessage st.userPublicKeyHex ev.created_at ev.kind ev.tags
          (escapeContent ev.content))
     ∧ (buildNote X st.userPrivateKeyHex st.userPublicKeyHex
          ev.created_at ev.content ev.kind ev.tags).sig =
        X.schnorrSign st.userPrivateKeyHex
          (buildNote X st.userPrivateKeyHex st.userPublicKeyHex
            ev.created_at ev.content ev.kind ev.tags).id
     ∧ X.schnorrVerify
        (buildNote X st.userPrivateKeyHex st.userPublicKeyHex
          ev.created_at ev.content ev.kind ev.tags).pubkey
        (buildNote X st.userPrivateKeyHex st.userPublicKeyHex
          ev.created_at ev.content ev.kind ev.tags).sig
        (buildNote X st.userPrivateKeyHex st.userPublicKeyHex
          ev.created_at ev.content ev.kind ev.tags).id = true) := by
  intro X st f req ev hver hpub hne hp hm hauth hfields
  refine ⟨?_, rfl, rfl, ?_⟩
  · rw [handleSigningRequestEvent_parsed X st f req hne hp]
    rw [if_neg (by rw [hm]; decide), if_pos hm]
    simp only [handleSignEvent, hauth, if_true, hfields]
    rfl
  · show X.schnorrVerify st.userPublicKeyHex
      (X.schnorrSign st.userPrivateKeyHex
        (X.sha256hex (noteMessage st.userPublicKeyHex ev.created_at ev.kind ev.tags
          (escapeContent ev.content))))
      (X.sha256hex (noteMessage st.userPublicKeyHex ev.created_at ev.kind ev.tags
        (escapeContent ev.content))) = true
    rw [hpub]
    exact hver st.userPrivateKeyHex _

/-- C6 witness: the concrete sign_event run with lawful dummy crypto
produces exactly the user-signed note response, with id equal to the
hash of the serialized array form. -/
theorem sign_event_id_and_signature_witness :
    handleSigningRequestEvent extW stW frameSignW =
      (stW, [mkOutbound stW frameSignW.senderPubKey
        (jsonIdResult reqSignW.id (escapeResponseEvent (renderNote
          (buildNote extW stW.userPrivateKeyHex stW.userPublicKeyHex
            evW.created_at evW.content evW.kind evW.tags))))
        Scheme.nip44]) :=
  (sign_event_id_and_signature extW stW frameSignW reqSignW evW
    (fun sk m => by simp [extW]) (by decide) (by decide) (by decide)
    (by decide) (by decide) (by decide)).1

/-- C7 counterexample: the claim predicts that after 2 consecutive
disconnects the delay before the next attempt is base * 2 ^ min 2 5 =
20000 ms.  In the code both the disconnect event handler and the
reconnection attempt in processLoop increment reconnection_attempts, so
after one full failed cycle and a second disconnect the counter is 3 and
the delay is 40000 ms. -/
theorem reconnect_backoff_counterexample :
    delayBeforeNextAttempt (cycle connInit) = 40000 ∧
    delayBeforeNextAttempt (cycle connInit) ≠
      MIN_RECONNECT_INTERVAL * 2 ^ min 2 5 := by
  decide

/-- C7 amended: the counter advances by 2 per failed reconnection cycle
(once at the disconnect, once at the attempt), so the delay waited before
the attempt that follows the N-th consecutive disconnect is
base * 2 ^ min (2N-1) 5; and once the counter has reached
MAX_RECONNECT_ATTEMPTS = 10, a due processLoop tick never attempts a
reconnection again - it triggers the device restart, the only exit. -/
theorem reconnect_backoff_amended :
    (∀ N : Nat, 1 ≤ N → N ≤ 5 →
      delayBeforeNextAttempt (cycle^[N - 1] connInit) =
        MIN_RECONNECT_INTERVAL * 2 ^ min (2 * N - 1) 5)
    ∧ (∀ (s : ConnState) (now : Nat),
        MAX_RECONNECT_ATTEMPTS ≤ s.reconnection_attempts →
        (stepProcessLoopTick s now).2 ≠ ConnAction.attemptConnect)
    ∧ (∀ (s : ConnState) (now : Nat),
        MAX_RECONNECT_ATTEMPTS ≤ s.reconnection_attempts →
        s.manual_reconnect_needed = true → s.connection_in_progress = false →
        s.connected = false →
        backoffDelay s ≤ now - s.last_reconnect_attempt →
        (stepProcessLoopTick s now).2 = ConnAction.restart) := by
  refine ⟨?_, ?_, ?_⟩
  · intro N h1 h5
    interval_cases N <;> decide
  · intro s now h
    unfold stepProcessLoopTick
    split
    · split
      · split
        · rename_i hlt
          exfalso
          omega
        · intro hc
          exact ConnAction.noConfusion hc
      · intro hc
        exact ConnAction.noConfusion hc
    · intro hc
      exact ConnAction.noConfusion hc
  · intro s now h hman hprog hconn hdue
    unfold stepProcessLoopTick
    rw [if_pos (by rw [hman, hprog, hconn]; rfl)]
    rw [if_pos hdue]
    rw [if_neg (by omega)]

/-- C7 amended witness: the delay before the attempt following the second
disconnect is base * 2 ^ 3, and a due tick at the cap does not attempt. -/
theorem reconnect_backoff_amended_witness :
    delayBeforeNextAttempt (cycle^[2 - 1] connInit) =
      MIN_RECONNECT_INTERVAL * 2 ^ min (2 * 2 - 1) 5 ∧
    (stepProcessLoopTick sCapW 999999).2 ≠ ConnAction.attemptConnect :=
  ⟨reconnect_backoff_amended.1 2 (by decide) (by decide),
   reconnect_backoff_amended.2.1 sCapW 999999 (by decide)⟩

/-- C8: from a cache state in which the pair (priv, pub) has no unexpired
entry and all timestamps are in the past, the first ecdh call computes the
shared secret by scalar multiplication and stores it; a second call for
the same pair within the TTL returns the bit-identical secret, does not
invoke scalar multiplication (the Bool in the result records invocation),
and leaves the cache unchanged - so the cached path returns exactly the
value the cold derivation path produced. -/
theorem ecdh_cache_coherence :
    ∀ (scalarMult : List Char → List Char → List Nat) (c : ECDHCache)
      (t1 t2 : Nat) (priv pub : List Char),
    getECDHFromCache c t1 priv pub = none →
    (∀ e ∈ c.entries, e.timestamp ≤ t1) →
    c.idx < c.entries.length →
    t1 ≤ t2 →
    t2 - t1 < ECDH_CACHE_TTL_MS →
    (ecdhWithCache scalarMult c t1 priv pub =
      (scalarMult priv pub, storeECDHInCache c t1 priv pub (scalarMult priv pub), true)
     ∧ ecdhWithCache scalarMult (storeECDHInCache c t1 priv pub (scalarMult priv pub))
         t2 priv pub =
       (scalarMult priv pub, storeECDHInCache c t1 priv pub (scalarMult priv pub), false)) := by
  intro mult c t1 t2 priv pub hmiss hts hidx h12 httl
  have hfindnone : c.entries.find? (ecdhHit t1 priv pub) = none := by
    unfold getECDHFromCache at hmiss
    cases hfq : c.entries.find? (ecdhHit t1 priv pub) with
    | none => rfl
    | some e => rw [hfq] at hmiss; simp at hmiss
  have hallfalse : ∀ e ∈ c.entries, ecdhHit t1 priv pub e = false := by
    intro e he
    have := List.find?_eq_none.mp hfindnone e he
    simpa using this
  have hallfalse2 : ∀ e ∈ c.entries, ecdhHit t2 priv pub e = false := by
    intro e he
    exact ecdhHit_mono_false priv pub e t1 t2 (hts e he) h12 (hallfalse e he)
  have hnewhit : ecdhHit t2 priv pub
      { privateKeyHex := priv, publicKeyHex := pub
        sharedSecret := mult priv pub, timestamp := t1 } = true := by
    simp [ecdhHit, httl]
  have hset : c.entries.set c.idx
      { privateKeyHex := priv, publicKeyHex := pub
        sharedSecret := mult priv pub, timestamp := t1 } =
      c.entries.take c.idx ++
        { privateKeyHex := priv, publicKeyHex := pub
          sharedSecret := mult priv pub, timestamp := t1 } ::
        c.entries.drop (c.idx + 1) := by
    rw [List.set_eq_take_append_cons_drop, if_pos hidx]
  have hlookup2 : getECDHFromCache
      (storeECDHInCache c t1 priv pub (mult priv pub)) t2 priv pub =
      some (mult priv pub) := by
    unfold getECDHFromCache storeECDHInCache
    simp only [hset]
    rw [find?_append_of_none _ _ _
      (fun x hx => hallfalse2 x (List.take_subset c.idx c.entries hx))]
    rw [List.find?_cons_of_pos _ hnewhit]
    rfl
  constructor
  · unfold ecdhWithCache
    rw [hmiss]
  · unfold ecdhWithCache
    rw [hlookup2]

/-- C8 witness: from the empty 8-slot cache, the call at time 5 computes
and stores, the call at time 100 is served from the cache with the same
secret and no scalar multiplication. -/
theorem ecdh_cache_coherence_witness :
    ecdhWithCache multW cacheW 5 privW pubW =
      (multW privW pubW, storeECDHInCache cacheW 5 privW pubW (multW privW pubW), true) ∧
    ecdhWithCache multW (storeECDHInCache cacheW 5 privW pubW (multW privW pubW))
        100 privW pubW =
      (multW privW pubW, storeECDHInCache cacheW 5 privW pubW (multW privW pubW), false) :=
  ecdh_cache_coherence multW cacheW 5 100 privW pubW
    (by decide) (by decide) (by decide) (by decide) (by decide)

/-- C10 (implicit): whenever the Authorized Client store is nonempty, the
membership test isClientAuthorized accepts every string that occurs as a
contiguous substring of the stored pipe-joined list - in particular the
empty string and any initial segment of a stored pubkey - so a request
whose extracted sender pubkey is the empty string passes the check used
by every method handler: checkClientIsAuthorized (connect) accepts it
without touching the state, and handlePing answers it. -/
theorem substring_authorization :
    ∀ st : SignerState, st.authorizedClients ≠ [] →
    ((∀ needle, occursIn needle st.authorizedClients → isClientAuthorized st needle = true)
     ∧ isClientAuthorized st [] = true
     ∧ (∀ c pre, occursIn c st.authorizedClients → startsWithPart pre c →
         isClientAuthorized st pre = true)
     ∧ (∀ secret, checkClientIsAuthorized st [] secret = (true, st))
     ∧ (∀ req : Request, (handlePing st [] req).2.length = 1)) := by
  intro st hne
  have hsub : ∀ needle, occursIn needle st.authorizedClients →
      isClientAuthorized st needle = true := by
    intro needle hocc
    exact arduinoContains_of_occursIn needle st.authorizedClients hne hocc
  have hempty : isClientAuthorized st [] = true :=
    hsub [] ⟨st.authorizedClients, [], by simp⟩
  refine ⟨hsub, hempty, ?_, ?_, ?_⟩
  · intro c pre hocc hpre
    obtain ⟨s, t, hhay⟩ := hocc
    obtain ⟨u, hcu⟩ := hpre
    exact hsub pre ⟨s, u ++ t, by rw [hhay, hcu]; simp⟩
  · intro secret
    unfold checkClientIsAuthorized
    rw [if_pos hempty]
  · intro req
    unfold handlePing
    rw [if_pos hempty]
    rfl

/-- C10 witness: with the concrete store "ab", the empty extracted pubkey
is accepted by the membership test. -/
theorem substring_authorization_witness :
    stW.authorizedClients ≠ [] ∧ isClientAuthorized stW [] = true :=
  ⟨by decide, (substring_authorization stW (by decide)).2.1⟩
